import Mathlib

/-!
Verification development for the EmailSubXtractor repository.

The repository consists of a React frontend (present under `frontend/`) and a
FastAPI backend (`backend/main.py`, described by the README and the
specification but not part of the shipped sources).  The backend pipeline
(body sanitizer, extraction client, email processor, normalizer/deduplicator,
analytics aggregator) is therefore modelled here from the specification,
while the frontend behaviour (`App.jsx` state handling) is embedded directly
from the source.
-/

/-! ## Body Sanitizer (spec §4.1) -/

/-- Whitespace test used by the sanitizer (space, tab, carriage return, newline). -/
def isWsChar (c : Char) : Bool :=
  c.isWhitespace

/-- Modelled from the spec: `backend/main.py`'s body cleaning strips
invisible/zero-width and control characters "without altering visible word
boundaries", so whitespace control characters are kept (they are collapsed
later). -/
def isInvisibleChar (c : Char) : Bool :=
  (c.val == 0x200B) || (c.val == 0x200C) || (c.val == 0x200D) || (c.val == 0xFEFF) ||
    (decide (c.val.toNat < 32) && !c.isWhitespace)

/-- Modelled from the spec: tag stripping for `backend/main.py`'s body
cleaning.  The flag records whether the scanner is inside a markup tag;
text inside a tag is dropped, the rest is kept in document order.  An
unterminated tag degrades to dropping the remainder (best effort). -/
def stripTagsGo : Bool → List Char → List Char
  | _, [] => []
  | false, c :: cs => if c = '<' then stripTagsGo true cs else c :: stripTagsGo false cs
  | true, c :: cs => if c = '>' then stripTagsGo false cs else stripTagsGo true cs

/-- Modelled from the spec: removes all markup tags, leaving only text content. -/
def stripTags (l : List Char) : List Char :=
  stripTagsGo false l

/-- Modelled from the spec: decodes markup entities to their literal
characters (`backend/main.py` is absent; the spec requires entity decoding). -/
def decodeEntities : List Char → List Char
  | [] => []
  | c :: cs =>
    if c = '&' then
      match cs with
      | 'a' :: 'm' :: 'p' :: ';' :: rest => '&' :: decodeEntities rest
      | 'l' :: 't' :: ';' :: rest => '<' :: decodeEntities rest
      | 'g' :: 't' :: ';' :: rest => '>' :: decodeEntities rest
      | 'q' :: 'u' :: 'o' :: 't' :: ';' :: rest => '\"' :: decodeEntities rest
      | 'n' :: 'b' :: 's' :: 'p' :: ';' :: rest => ' ' :: decodeEntities rest
      | rest => '&' :: decodeEntities rest
    else c :: decodeEntities cs

/-- Modelled from the spec: collapses every run of whitespace characters to a
single space, keeping non-whitespace characters unchanged. -/
def squeezeWs : List Char → List Char
  | [] => []
  | [c] => [if isWsChar c then ' ' else c]
  | a :: b :: rest =>
    if isWsChar a && isWsChar b then squeezeWs (b :: rest)
    else (if isWsChar a then ' ' else a) :: squeezeWs (b :: rest)

/-- Modelled from the spec: trims leading and trailing whitespace. -/
def trimWs (l : List Char) : List Char :=
  ((l.dropWhile isWsChar).reverse.dropWhile isWsChar).reverse

/-- Modelled from the spec: the Body Sanitizer of `backend/main.py` (absent
from the sources).  Per spec §4.1: remove markup tags, decode entities,
strip invisible characters, collapse whitespace runs, trim. -/
def sanitizeList (l : List Char) : List Char :=
  trimWs (squeezeWs ((decodeEntities (stripTags l)).filter (fun c => !isInvisibleChar c)))

/-- Body Sanitizer on strings. -/
def sanitizeBody (s : String) : String :=
  String.mk (sanitizeList s.data)

/-- Body Sanitizer on a possibly-null body (spec: null input yields the empty
string, not an error). -/
def sanitizeBodyOpt : Option String → String
  | none => ""
  | some s => sanitizeBody s

/-! ## Data model (spec §3) -/

/-- Billing cycle enumeration from the data model. -/
inductive BillingCycle where
  | monthly
  | yearly
  | weekly
  | unknown
  deriving DecidableEq

/-- Modelled from the spec: structured fields produced by extraction in
`backend/main.py` (absent).  All fields optional/nullable; costs are carried
as exact rationals. -/
structure SubscriptionInfo where
  name : Option String
  cost : Option ℚ
  currency : Option String
  billing_cycle : Option BillingCycle
  category : Option String
  confidence : Option ℚ
  deriving DecidableEq

instance : Inhabited SubscriptionInfo :=
  ⟨⟨none, none, none, none, none, none⟩⟩

/-- SubscriptionInfo with every field null: a successful extraction that
found no subscription content. -/
def emptySubscriptionInfo : SubscriptionInfo :=
  ⟨none, none, none, none, none, none⟩

/-- Raw email record as uploaded. -/
structure RawEmail where
  subject : String
  body : String
  snippet : String
  «from» : String
  deriving DecidableEq

/-- Modelled from the spec: one result record per RawEmail, produced by the
Email Processor of `backend/main.py` (absent). -/
structure ProcessedEmail where
  subject : String
  «from» : String
  body_length : Nat
  subscription_info : Option SubscriptionInfo
  extraction_error : Option String
  deriving DecidableEq

/-- A deduplication bucket keyed by a normalized service name. -/
structure CanonicalService where
  canonical_name : String
  occurrences : List SubscriptionInfo
  count : Nat
  deriving DecidableEq

/-- Per-service analytics entry. -/
structure ServiceStat where
  average_amount : ℚ
  currency : Option String
  count : Nat
  deriving DecidableEq

/-- Entry of `duplicate_subscriptions_details`. -/
structure DupDetail where
  count : Nat
  category : Option String
  deriving DecidableEq

/-- Entry of `deduplicated_subscriptions`. -/
structure DedupEntry where
  count : Nat
  subscription_info : SubscriptionInfo
  deriving DecidableEq

/-- The analytics snapshot; mappings are association lists in first-seen
order. -/
structure AnalyticsSnapshot where
  total_emails : Nat
  successful_extractions : Nat
  failed_extractions : Nat
  category_distribution : List (String × Nat)
  service_analytics : List (String × ServiceStat)
  duplicate_subscriptions_details : List (String × DupDetail)
  deduplicated_subscriptions : List (String × DedupEntry)
  deriving DecidableEq

/-! ## Extraction Client (spec §4.2) -/

/-- Structured data as returned by the extraction capability (a JSON-like
value; arrays are not needed for the `SubscriptionInfo` shape). -/
inductive Json where
  | null : Json
  | str : String → Json
  | num : ℚ → Json
  | boolean : Bool → Json
  | obj : List (String × Json) → Json

/-- Field lookup in a JSON object; a missing field reads as `null`
(all `SubscriptionInfo` fields are optional). -/
def getField (fields : List (String × Json)) (key : String) : Json :=
  match fields.find? (fun f => f.1 == key) with
  | some f => f.2
  | none => Json.null

def errNotObject : String := "response is not a JSON object"

def errBadString : String := "field is not a string or null"

def errBadNumber : String := "field is not a number or null"

def errBadCycle : String := "field is not a valid billing cycle"

def errNoResponse : String := "no usable response from extraction capability"

/-- Modelled from the spec: shape validation of one nullable string field. -/
def asOptString : Json → Except String (Option String)
  | Json.null => Except.ok none
  | Json.str s => Except.ok (some s)
  | _ => Except.error errBadString

/-- Modelled from the spec: shape validation of one nullable numeric field. -/
def asOptNum : Json → Except String (Option ℚ)
  | Json.null => Except.ok none
  | Json.num q => Except.ok (some q)
  | _ => Except.error errBadNumber

/-- Modelled from the spec: shape validation of the billing-cycle enum. -/
def asOptBillingCycle : Json → Except String (Option BillingCycle)
  | Json.null => Except.ok none
  | Json.str s =>
    if s = "monthly" then Except.ok (some BillingCycle.monthly)
    else if s = "yearly" then Except.ok (some BillingCycle.yearly)
    else if s = "weekly" then Except.ok (some BillingCycle.weekly)
    else if s = "unknown" then Except.ok (some BillingCycle.unknown)
    else Except.error errBadCycle
  | _ => Except.error errBadCycle

/-- Modelled from the spec: `backend/main.py`'s validation of the capability
response against the `SubscriptionInfo` shape.  A value that is not a
conforming object is an error, never an empty `SubscriptionInfo`. -/
def validateSubscriptionInfo : Json → Except String SubscriptionInfo
  | Json.obj fields => do
      let name ← asOptString (getField fields ("name"))
      let cost ← asOptNum (getField fields ("cost"))
      let currency ← asOptString (getField fields ("currency"))
      let billing ← asOptBillingCycle (getField fields ("billing_cycle"))
      let category ← asOptString (getField fields ("category"))
      let confidence ← asOptNum (getField fields ("confidence"))
      Except.ok ⟨name, cost, currency, billing, category, confidence⟩
  | _ => Except.error errNotObject

/-- Modelled from the spec: the Extraction Client parses the capability's
raw response; `none` stands for a response that is not parseable structured
data at all (malformed or truncated output). -/
def parseExtractionResponse : Option Json → Except String SubscriptionInfo
  | none => Except.error errNoResponse
  | some j => validateSubscriptionInfo j

/-! ## Email Processor (spec §4.3) -/

/-- Modelled from the spec: build the `ProcessedEmail` record from the
extraction result; on failure `extraction_error` is set and
`subscription_info` stays null. -/
def mkProcessed (e : RawEmail) (res : Except String SubscriptionInfo) : ProcessedEmail :=
  { subject := e.subject
    «from» := e.«from»
    body_length := (sanitizeBody e.body).length
    subscription_info := match res with
      | Except.ok si => some si
      | Except.error _ => none
    extraction_error := match res with
      | Except.ok _ => none
      | Except.error m => some m }

/-- Modelled from the spec: process one email: clean the body, invoke the
extraction function on subject and cleaned body, record the result. -/
def processOne (f : String → String → Except String SubscriptionInfo) (e : RawEmail) :
    ProcessedEmail :=
  mkProcessed e (f e.subject (sanitizeBody e.body))

/-- Modelled from the spec: the Email Processor maps over the batch; each
email is processed independently, in order. -/
def processEmails (f : String → String → Except String SubscriptionInfo)
    (emails : List RawEmail) : List ProcessedEmail :=
  emails.map (processOne f)

/-! ## Subscription Normalizer/Deduplicator (spec §4.4) -/

/-- The fixed set of corporate suffixes, longest first so that a trailing
period is stripped together with the word. -/
def corpSuffixes : List (List Char) :=
  [['i', 'n', 'c', '.'], ['i', 'n', 'c'], ['l', 'l', 'c'], ['l', 't', 'd'], ['c', 'o']]

/-- Modelled from the spec: strip one trailing corporate suffix if present. -/
def stripCorpSuffix (l : List Char) : List Char :=
  match corpSuffixes.find? (fun s => s.isSuffixOf l) with
  | some s => l.take (l.length - s.length)
  | none => l

/-- Modelled from the spec: the canonical-key function: lower-case, trim,
strip a corporate suffix, collapse internal whitespace, trim again.  Pure
and total. -/
def normalizeServiceName (s : String) : String :=
  String.mk (trimWs (squeezeWs (stripCorpSuffix (trimWs (s.data.map Char.toLower)))))

/-- Modelled from the spec: the canonical key and payload of a processed
email that carries a non-null, non-empty subscription name; `none` for
emails excluded from deduplication. -/
def namedSubscription (p : ProcessedEmail) : Option (String × SubscriptionInfo) :=
  match p.subscription_info with
  | some si =>
    match si.name with
    | some n => if n = "" then none else some (normalizeServiceName n, si)
    | none => none
  | none => none

/-- The keyed occurrences contributed by a batch, in input order. -/
def namedEntries (ps : List ProcessedEmail) : List (String × SubscriptionInfo) :=
  ps.filterMap namedSubscription

/-- Modelled from the spec: merge one occurrence into the association list of
canonical services, preserving first-seen order of keys and of occurrences. -/
def insertOcc : List (String × CanonicalService) → String → SubscriptionInfo →
    List (String × CanonicalService)
  | [], key, si => [(key, ⟨key, [si], 1⟩)]
  | (k, cs) :: rest, key, si =>
    if k == key then
      (k, ⟨cs.canonical_name, cs.occurrences ++ [si], cs.count + 1⟩) :: rest
    else
      (k, cs) :: insertOcc rest key si

/-- Modelled from the spec: group the named occurrences of a batch by
canonical key. -/
def dedupServices (ps : List ProcessedEmail) : List (String × CanonicalService) :=
  (namedEntries ps).foldl (fun acc e => insertOcc acc e.1 e.2) []

/-- Occurrences recorded for a key (empty when the key is absent). -/
def occsFor (acc : List (String × CanonicalService)) (key : String) : List SubscriptionInfo :=
  match acc.find? (fun e => e.1 == key) with
  | some e => e.2.occurrences
  | none => []

/-- Count recorded for a key (zero when the key is absent). -/
def countFor (acc : List (String × CanonicalService)) (key : String) : Nat :=
  match acc.find? (fun e => e.1 == key) with
  | some e => e.2.count
  | none => 0

/-- The representative occurrence shown to the user: the first-seen one. -/
def representative (cs : CanonicalService) : SubscriptionInfo :=
  cs.occurrences.headI

/-! ## Analytics Aggregator (spec §4.5) -/

/-- Modelled from the spec: count of records whose `extraction_error` is null. -/
def successfulExtractions (ps : List ProcessedEmail) : Nat :=
  (ps.filter (fun p => p.extraction_error.isNone)).length

/-- Modelled from the spec: count of records whose `extraction_error` is set. -/
def failedExtractions (ps : List ProcessedEmail) : Nat :=
  (ps.filter (fun p => p.extraction_error.isSome)).length

def unknownCategory : String := "unknown"

/-- Bump the counter of `key` in an association list of counters. -/
def bumpCat : List (String × Nat) → String → List (String × Nat)
  | [], key => [(key, 1)]
  | (k, n) :: rest, key =>
    if k == key then (k, n + 1) :: rest else (k, n) :: bumpCat rest key

/-- One aggregation step of the category distribution: records without
`subscription_info` are skipped, a null category counts as `"unknown"`. -/
def catStep (acc : List (String × Nat)) (p : ProcessedEmail) : List (String × Nat) :=
  match p.subscription_info with
  | some si => bumpCat acc (si.category.getD unknownCategory)
  | none => acc

/-- Modelled from the spec: category distribution over records that carry a
`subscription_info`, with null category counted as the literal string
`"unknown"`; records without `subscription_info` are skipped. -/
def categoryDistribution (ps : List ProcessedEmail) : List (String × Nat) :=
  ps.foldl catStep []

/-- Count stored for a category (zero when the bucket is absent). -/
def catCount (dist : List (String × Nat)) (key : String) : Nat :=
  match dist.find? (fun e => e.1 == key) with
  | some e => e.2
  | none => 0

/-- Modelled from the spec: arithmetic mean of the non-null costs; zero when
no occurrence is priced (explicit zero, not an error). -/
def averageAmount (occs : List SubscriptionInfo) : ℚ :=
  if (occs.filterMap SubscriptionInfo.cost).length = 0 then 0
  else (occs.filterMap SubscriptionInfo.cost).sum
    / ((occs.filterMap SubscriptionInfo.cost).length : ℚ)

/-- Modelled from the spec: the currency of the first occurrence that has
one, or null. -/
def firstCurrency (occs : List SubscriptionInfo) : Option String :=
  (occs.filterMap SubscriptionInfo.currency).head?

/-- Per-service analytics record of one canonical service. -/
def mkServiceStat (cs : CanonicalService) : ServiceStat :=
  ⟨averageAmount cs.occurrences, firstCurrency cs.occurrences, cs.count⟩

/-- Modelled from the spec: `service_analytics` keyed by canonical name. -/
def serviceAnalytics (ps : List ProcessedEmail) : List (String × ServiceStat) :=
  (dedupServices ps).map (fun e => (e.1, mkServiceStat e.2))

/-- Modelled from the spec: `duplicate_subscriptions_details`, restricted to
services with count above one; the category comes from the representative. -/
def duplicateDetails (ps : List ProcessedEmail) : List (String × DupDetail) :=
  ((dedupServices ps).filter (fun e => decide (1 < e.2.count))).map
    (fun e => (e.1, DupDetail.mk e.2.count (representative e.2).category))

/-- Modelled from the spec: `deduplicated_subscriptions`: every canonical
service regardless of count, with the representative occurrence. -/
def dedupSubscriptions (ps : List ProcessedEmail) : List (String × DedupEntry) :=
  (dedupServices ps).map (fun e => (e.1, DedupEntry.mk e.2.count (representative e.2)))

/-- Modelled from the spec: the Analytics Aggregator, recomputed in full from
the processed batch. -/
def computeAnalytics (ps : List ProcessedEmail) : AnalyticsSnapshot :=
  ⟨ps.length, successfulExtractions ps, failedExtractions ps, categoryDistribution ps,
    serviceAnalytics ps, duplicateDetails ps, dedupSubscriptions ps⟩

/-! ## Frontend `App.jsx` state handling (embedded from the source) -/

/-- The React state of the `App` component (`App.jsx`). -/
structure AppState where
  processedEmails : List ProcessedEmail
  analytics : Option AnalyticsSnapshot
  uploadStatus : String
  outputFilesProcessed : Option String
  outputFilesAnalytics : Option String
  deriving DecidableEq

/-- Initial state set by the `useState` hooks in `App.jsx`. -/
def initialState : AppState :=
  ⟨[], none, "", none, none⟩

/-- Outcome of the upload request as observed by `handleFileUpload`: either a
response carrying a status and data, or a request failure carrying an
optional server detail and an error message. -/
inductive UploadOutcome where
  | response (status : String) (data : List ProcessedEmail)
  | failure (detail : Option String) (message : String)
  deriving DecidableEq

def processingFailedMessage : String := "Processing failed"

def successUploadMessage : String := "Processing complete! Files have been saved."

def fallbackUploadMessage : String :=
  "Error processing file. Please ensure your JSON file contains a list of email objects."

/-- JavaScript `||` on strings: the empty string is falsy. -/
def jsOr (a b : String) : String :=
  if a = "" then b else a

/-- The catch block of `handleFileUpload`:
`error.response?.data?.detail || error.message || fallback`. -/
def catchMessage : Option String → String → String
  | some d, message => jsOr d (jsOr message fallbackUploadMessage)
  | none, message => jsOr message fallbackUploadMessage

/-- The detail available to the catch block for a given outcome; the `Error`
thrown on a non-success response carries no `response` field. -/
def outcomeDetail : UploadOutcome → Option String
  | UploadOutcome.response _ _ => none
  | UploadOutcome.failure d _ => d

/-- The error message seen by the catch block: the thrown
`Error("Processing failed")` for a non-success response, otherwise the
failure's own message. -/
def outcomeMessage : UploadOutcome → String
  | UploadOutcome.response _ _ => processingFailedMessage
  | UploadOutcome.failure _ m => m

/-- `handleFileUpload` from `App.jsx`: returns without doing anything when no
file is given; on a response with status `"success"` stores the data, the
two timestamped output file names and the success message; any other outcome
only changes `uploadStatus`, via the catch block. -/
def handleFileUpload (s : AppState) (hasFile : Bool) (o : UploadOutcome) (ts : String) :
    AppState :=
  if hasFile then
    match o with
    | UploadOutcome.response st data =>
      if st = "success" then
        { s with
          processedEmails := data
          outputFilesProcessed := some (("processed_emails_") ++ ts ++ (".json"))
          outputFilesAnalytics := some (("analytics_") ++ ts ++ (".json"))
          uploadStatus := successUploadMessage }
      else
        { s with uploadStatus := catchMessage none processingFailedMessage }
    | UploadOutcome.failure detail message =>
      { s with uploadStatus := catchMessage detail message }
  else s

/-- The guard of the `useEffect` in `App.jsx`: analytics are fetched exactly
when `processedEmails.length > 0`. -/
def shouldFetch (s : AppState) : Bool :=
  decide (0 < s.processedEmails.length)

/-- `fetchAnalytics` success: stores the response body. -/
def setAnalytics (s : AppState) (a : AnalyticsSnapshot) : AppState :=
  { s with analytics := some a }

/-- `AnalyticsDashboard` (Header.jsx) renders nothing when `analytics` is
null and renders the dashboard otherwise. -/
def dashboardRenders (s : AppState) : Bool :=
  s.analytics.isSome

/-- One step of the `App` component: an upload completing, or an analytics
fetch (which the effect issues only under its guard) succeeding or failing. -/
inductive AppStep : AppState → AppState → Prop
  | upload (s : AppState) (hasFile : Bool) (o : UploadOutcome) (ts : String) :
      AppStep s (handleFileUpload s hasFile o ts)
  | fetchOk (s : AppState) (a : AnalyticsSnapshot) (h : shouldFetch s = true) :
      AppStep s (setAnalytics s a)
  | fetchFail (s : AppState) (h : shouldFetch s = true) : AppStep s s

/-- States reachable from the initial state. -/
inductive AppReachable : AppState → Prop
  | init : AppReachable initialState
  | step (s t : AppState) : AppReachable s → AppStep s t → AppReachable t

/-- Outcomes whose successful payload is the empty batch. -/
def outcomeDataEmpty : UploadOutcome → Prop
  | UploadOutcome.response _ data => data = []
  | UploadOutcome.failure _ _ => True

/-- States reachable when every upload in the run returned an empty batch
(or failed). -/
inductive EmptyUploadsReachable : AppState → Prop
  | init : EmptyUploadsReachable initialState
  | upload (s : AppState) (hasFile : Bool) (o : UploadOutcome) (ts : String) :
      EmptyUploadsReachable s → outcomeDataEmpty o →
      EmptyUploadsReachable (handleFileUpload s hasFile o ts)
  | fetchOk (s : AppState) (a : AnalyticsSnapshot) :
      EmptyUploadsReachable s → shouldFetch s = true →
      EmptyUploadsReachable (setAnalytics s a)
  | fetchFail (s : AppState) : EmptyUploadsReachable s → shouldFetch s = true →
      EmptyUploadsReachable s

/-! ## Helper lemmas: success/failure counting -/

/-! ## Concrete instances and invariants used by the verification -/

/-- Demo record with a categorized subscription, used to instantiate C7. -/
def demoCatEmail : ProcessedEmail :=
  ⟨"a", "b", 0, some ⟨some ("Netflix"), none, none, none, some ("video"), none⟩, none⟩

/-- Demo record without subscription info, used to instantiate C7. -/
def demoNoSubEmail : ProcessedEmail :=
  ⟨"c", "d", 0, none, some ("extraction failed")⟩

/-- Five raw emails with distinct subjects, used to instantiate C2. -/
def wEmails : List RawEmail :=
  [⟨"s0", "", "", ""⟩, ⟨"s1", "", "", ""⟩, ⟨"s2", "", "", ""⟩,
    ⟨"s3", "", "", ""⟩, ⟨"s4", "", "", ""⟩]

/-- Subscription payload returned by the demo extraction functions. -/
def wOkInfo : SubscriptionInfo :=
  ⟨some ("Svc"), none, none, none, none, none⟩

/-- Demo extraction function failing exactly on subject `s2`. -/
def wExtract : String → String → Except String SubscriptionInfo :=
  fun s _ => if s = "s2" then Except.error ("refused") else Except.ok wOkInfo

/-- Demo extraction function that always succeeds. -/
def wExtractOk : String → String → Except String SubscriptionInfo :=
  fun _ _ => Except.ok wOkInfo

/-- Structural invariant of the canonical-service association list: counts
match occurrence lists, every bucket is inhabited, keys are distinct. -/
def WfSvc (acc : List (String × CanonicalService)) : Prop :=
  (∀ e ∈ acc, e.2.count = e.2.occurrences.length ∧ e.2.occurrences ≠ [])
    ∧ (acc.map Prod.fst).Nodup

/-- Three emails naming the same service three ways (spec §8's duplicate
reporting example). -/
def netflixBatch : List ProcessedEmail :=
  [⟨"e1", "", 0, some ⟨some ("Netflix"), some (15.49 : ℚ), none, none, none, none⟩, none⟩,
    ⟨"e2", "", 0, some ⟨some ("netflix"), some (15.49 : ℚ), none, none, none, none⟩, none⟩,
    ⟨"e3", "", 0, some ⟨some ("Netflix Inc."), some (15.49 : ℚ), none, none, none, none⟩, none⟩]

/-- Email whose subscription name is a single space: it is kept by the
deduplicator and normalizes to the empty canonical key. -/
def spaceNameEmail : ProcessedEmail :=
  ⟨"e1", "", 0, some ⟨some (" "), none, none, none, none, none⟩, none⟩

/-- Email whose subscription name is the empty string: the deduplicator
excludes it (spec §4.4 step 2), although its name is non-null. -/
def emptyNameEmail : ProcessedEmail :=
  ⟨"e2", "", 0, some ⟨some (""), none, none, none, none, none⟩, none⟩

/-- The canonical service produced by `netflixBatch`, used to instantiate C6. -/
def netflixService : CanonicalService :=
  ⟨"netflix",
    [⟨some ("Netflix"), some (15.49 : ℚ), none, none, none, none⟩,
      ⟨some ("netflix"), some (15.49 : ℚ), none, none, none, none⟩,
      ⟨some ("Netflix Inc."), some (15.49 : ℚ), none, none, none, none⟩], 3⟩

/-- Subscription info for the average-cost example, with the given cost. -/
def avgInfo (c : Option ℚ) : SubscriptionInfo :=
  ⟨some ("svc"), c, none, none, none, none⟩

/-- Batch with occurrence costs 9.99, null, 11.99 (spec §8's average
correctness example). -/
def avgBatch : List ProcessedEmail :=
  [⟨"e1", "", 0, some (avgInfo (some (9.99 : ℚ))), none⟩,
    ⟨"e2", "", 0, some (avgInfo none), none⟩,
    ⟨"e3", "", 0, some (avgInfo (some (11.99 : ℚ))), none⟩]

/-- The canonical service produced by `avgBatch`. -/
def avgService : CanonicalService :=
  ⟨"svc", [avgInfo (some (9.99 : ℚ)), avgInfo none, avgInfo (some (11.99 : ℚ))], 3⟩

/-- A squeezed character list: every whitespace character is a plain space
and no two adjacent characters are both whitespace. -/
def Sq (l : List Char) : Prop :=
  (∀ c ∈ l, isWsChar c = true → c = ' ')
    ∧ l.Chain' (fun a b => ¬(isWsChar a = true ∧ isWsChar b = true))

/-- Property of the head character failing a predicate (vacuous for `[]`). -/
def headNotP (p : Char → Bool) : List Char → Prop
  | [] => True
  | c :: _ => p c = false

/-- A trimmed list: neither end is whitespace. -/
def Trimmed (l : List Char) : Prop :=
  headNotP isWsChar l ∧ headNotP isWsChar l.reverse

/-- Minimal analytics snapshot used in the C9 trace. -/
def demoSnapshot : AnalyticsSnapshot :=
  ⟨1, 1, 0, [], [], [], []⟩

/-- Minimal processed email used in the C9 trace. -/
def demoProcessedEmail : ProcessedEmail :=
  ⟨"s", "f", 0, none, none⟩

/-- The state after uploading a one-email batch, fetching a snapshot, and
then uploading an empty batch. -/
def staleState : AppState :=
  handleFileUpload
    (setAnalytics
      (handleFileUpload initialState true
        (UploadOutcome.response ("success") [demoProcessedEmail]) ("t"))
      demoSnapshot)
    true (UploadOutcome.response ("success") []) ("t")

/-! ## Theorems -/

theorem successful_eq_countP (ps : List ProcessedEmail) :
    successfulExtractions ps = ps.countP (fun p => p.extraction_error == none) := by
  induction ps with
  | nil => rfl
  | cons p ps ih =>
    cases h : p.extraction_error <;>
      simp [successfulExtractions, List.countP_cons, List.filter_cons, h] at ih ⊢ <;>
      omega

theorem failed_eq_countP (ps : List ProcessedEmail) :
    failedExtractions ps = ps.countP (fun p => !(p.extraction_error == none)) := by
  induction ps with
  | nil => rfl
  | cons p ps ih =>
    cases h : p.extraction_error <;>
      simp [failedExtractions, List.countP_cons, List.filter_cons, h] at ih ⊢ <;>
      omega

theorem succ_add_failed (ps : List ProcessedEmail) :
    successfulExtractions ps + failedExtractions ps = ps.length := by
  induction ps with
  | nil => rfl
  | cons p ps ih =>
    cases h : p.extraction_error <;>
      simp [successfulExtractions, failedExtractions, List.filter_cons, h] at ih ⊢ <;>
      omega

/-- C1: for every RawEmail batch, the AnalyticsSnapshot computed from the
processed batch has `total_emails` equal to the input batch length,
`successful_extractions` counting exactly the records with null
`extraction_error`, `failed_extractions` counting the complement, and the
two counts summing to `total_emails`. -/
theorem analytics_totals_correct (f : String → String → Except String SubscriptionInfo)
    (batch : List RawEmail) :
    (computeAnalytics (processEmails f batch)).total_emails = batch.length
    ∧ (computeAnalytics (processEmails f batch)).successful_extractions
        = (processEmails f batch).countP (fun p => p.extraction_error == none)
    ∧ (computeAnalytics (processEmails f batch)).failed_extractions
        = (processEmails f batch).countP (fun p => !(p.extraction_error == none))
    ∧ (computeAnalytics (processEmails f batch)).successful_extractions
        + (computeAnalytics (processEmails f batch)).failed_extractions
        = (computeAnalytics (processEmails f batch)).total_emails := by
  refine ⟨?_, ?_, ?_, ?_⟩
  · simp [computeAnalytics, processEmails]
  · simpa [computeAnalytics] using successful_eq_countP (processEmails f batch)
  · simpa [computeAnalytics] using failed_eq_countP (processEmails f batch)
  · simpa [computeAnalytics] using succ_add_failed (processEmails f batch)

/-- C5: the Extraction Client returns a tagged result: every response parses
to `ok` or to a typed error; unusable responses (no structured data, or a
refusal string) are errors, never an empty SubscriptionInfo; the processed
record has `extraction_error` null exactly when parsing succeeded and
`subscription_info` null exactly when it failed; and a valid but empty
object yields a present-but-empty SubscriptionInfo that counts as a
successful extraction. -/
theorem extraction_result_distinction :
    (∀ r : Option Json,
      (∃ si, parseExtractionResponse r = Except.ok si)
        ∨ (∃ m, parseExtractionResponse r = Except.error m))
    ∧ (∃ m, parseExtractionResponse none = Except.error m)
    ∧ (∀ s : String, ∃ m, parseExtractionResponse (some (Json.str s)) = Except.error m)
    ∧ (∀ (e : RawEmail) (r : Option Json),
        ((mkProcessed e (parseExtractionResponse r)).extraction_error = none
          ↔ ∃ si, parseExtractionResponse r = Except.ok si)
        ∧ ((mkProcessed e (parseExtractionResponse r)).subscription_info = none
          ↔ ∃ m, parseExtractionResponse r = Except.error m))
    ∧ parseExtractionResponse (some (Json.obj [])) = Except.ok emptySubscriptionInfo
    ∧ (∀ e : RawEmail,
        (mkProcessed e (Except.ok emptySubscriptionInfo)).subscription_info
            = some emptySubscriptionInfo
        ∧ (mkProcessed e (Except.ok emptySubscriptionInfo)).extraction_error = none
        ∧ successfulExtractions [mkProcessed e (Except.ok emptySubscriptionInfo)] = 1) := by
  refine ⟨?_, ⟨errNoResponse, rfl⟩, fun s => ⟨errNotObject, rfl⟩, ?_, rfl, fun e => ⟨rfl, rfl, rfl⟩⟩
  · intro r
    cases h : parseExtractionResponse r with
    | ok si => exact Or.inl ⟨si, rfl⟩
    | error m => exact Or.inr ⟨m, rfl⟩
  · intro e r
    cases h : parseExtractionResponse r with
    | ok si => simp [mkProcessed, h]
    | error m => simp [mkProcessed, h]

/-! ## Helper lemmas: category distribution -/

theorem catCount_nil (q : String) : catCount [] q = 0 := rfl

theorem catCount_cons (ak : String) (an : Nat) (rest : List (String × Nat)) (q : String) :
    catCount ((ak, an) :: rest) q = if ak = q then an else catCount rest q := by
  by_cases h : ak = q
  · subst h; simp [catCount, List.find?_cons]
  · have hb : (ak == q) = false := beq_eq_false_iff_ne.mpr h
    simp [catCount, List.find?_cons, hb, h]

theorem catCount_bumpCat (acc : List (String × Nat)) (k q : String) :
    catCount (bumpCat acc k) q = catCount acc q + (if q = k then 1 else 0) := by
  induction acc with
  | nil =>
    by_cases hqk : q = k
    · subst hqk; simp [bumpCat, catCount_cons, catCount_nil]
    · have hk : k ≠ q := fun h => hqk h.symm
      simp [bumpCat, catCount_cons, catCount_nil, hk, hqk]
  | cons a rest ih =>
    obtain ⟨ak, an⟩ := a
    by_cases hak : ak = k
    · subst hak
      by_cases hq : ak = q
      · subst hq
        simp [bumpCat, catCount_cons]
      · have hq' : q ≠ ak := fun h => hq h.symm
        simp [bumpCat, catCount_cons, hq, hq']
    · have hb : (ak == k) = false := beq_eq_false_iff_ne.mpr hak
      by_cases hq : ak = q
      · subst hq
        simp [bumpCat, hb, catCount_cons, hak]
      · simp [bumpCat, hb, catCount_cons, hq, ih]

theorem catCount_foldl (ps : List ProcessedEmail) (acc : List (String × Nat)) (q : String) :
    catCount (ps.foldl catStep acc) q
      = catCount acc q
        + ps.countP (fun p =>
            match p.subscription_info with
            | some si => (si.category.getD unknownCategory) == q
            | none => false) := by
  induction ps generalizing acc with
  | nil => simp
  | cons p ps ih =>
    rw [List.foldl_cons, ih, List.countP_cons]
    cases h : p.subscription_info with
    | none => simp [catStep, h]
    | some si =>
      by_cases hc : (si.category.getD unknownCategory) = q
      · subst hc
        simp [catStep, h, catCount_bumpCat]
        omega
      · have hb : (si.category.getD unknownCategory == q) = false :=
          beq_eq_false_iff_ne.mpr hc
        have hq' : ¬q = si.category.getD unknownCategory := fun hx => hc hx.symm
        simp [catStep, h, catCount_bumpCat, hb, hq']

/-- C7: `category_distribution` maps each category to the number of processed
emails with non-null `subscription_info` whose category (a null category
reading as the literal string "unknown") equals it; records with null
`subscription_info` contribute to no bucket. -/
theorem category_distribution_correct (ps : List ProcessedEmail) (cat : String)
    (p : ProcessedEmail) (rest : List ProcessedEmail)
    (h : p.subscription_info = none) :
    catCount (categoryDistribution ps) cat
      = ps.countP (fun r =>
          match r.subscription_info with
          | some si => (si.category.getD unknownCategory) == cat
          | none => false)
    ∧ categoryDistribution (p :: rest) = categoryDistribution rest := by
  constructor
  · simpa [categoryDistribution, catCount_nil] using catCount_foldl ps [] cat
  · simp [categoryDistribution, catStep, h]

/-- Witness for C7 at a concrete batch. -/
theorem category_distribution_witness :
    catCount (categoryDistribution [demoCatEmail]) ("video") = 1
    ∧ categoryDistribution [demoNoSubEmail] = categoryDistribution [] := by
  have h := category_distribution_correct [demoCatEmail] ("video") demoNoSubEmail [] rfl
  exact ⟨h.1.trans (by decide), h.2⟩

/-! ## Helper lemma: `handleFileUpload` updates results only on success -/

theorem handleFileUpload_changes_only_success (s : AppState) (o : UploadOutcome)
    (ts : String)
    (hne : (handleFileUpload s true o ts).processedEmails ≠ s.processedEmails
        ∨ (handleFileUpload s true o ts).outputFilesProcessed ≠ s.outputFilesProcessed
        ∨ (handleFileUpload s true o ts).outputFilesAnalytics ≠ s.outputFilesAnalytics) :
    ∃ d, o = UploadOutcome.response ("success") d := by
  cases o with
  | response st data =>
    by_cases hst : st = "success"
    · exact ⟨data, by rw [hst]⟩
    · exfalso
      simp [handleFileUpload, hst] at hne
  | failure d m =>
    exfalso
    simp [handleFileUpload] at hne

/-- C10: when the upload outcome is not a success response, `handleFileUpload`
leaves `processedEmails` and both output-file names unchanged and sets
`uploadStatus` to the server's error detail, the error message, or the fixed
fallback string; the result fields are updated only by a response whose
status is "success". -/
theorem upload_error_preserves_results (s : AppState) (o : UploadOutcome) (ts : String)
    (h : ∀ d : List ProcessedEmail, o ≠ UploadOutcome.response ("success") d) :
    (handleFileUpload s true o ts).processedEmails = s.processedEmails
    ∧ (handleFileUpload s true o ts).outputFilesProcessed = s.outputFilesProcessed
    ∧ (handleFileUpload s true o ts).outputFilesAnalytics = s.outputFilesAnalytics
    ∧ ((∃ d, outcomeDetail o = some d ∧ (handleFileUpload s true o ts).uploadStatus = d)
        ∨ (handleFileUpload s true o ts).uploadStatus = outcomeMessage o
        ∨ (handleFileUpload s true o ts).uploadStatus = fallbackUploadMessage)
    ∧ (∀ (s' : AppState) (o' : UploadOutcome) (ts' : String),
        ((handleFileUpload s' true o' ts').processedEmails ≠ s'.processedEmails
            ∨ (handleFileUpload s' true o' ts').outputFilesProcessed
                ≠ s'.outputFilesProcessed
            ∨ (handleFileUpload s' true o' ts').outputFilesAnalytics
                ≠ s'.outputFilesAnalytics)
          → ∃ d, o' = UploadOutcome.response ("success") d) := by
  refine ⟨?_, ?_, ?_, ?_, fun s' o' ts' hne => handleFileUpload_changes_only_success s' o' ts' hne⟩
  · cases o with
    | response st data =>
      have hst : ¬st = "success" := fun he => h data (by rw [he])
      simp [handleFileUpload, hst]
    | failure d m => simp [handleFileUpload]
  · cases o with
    | response st data =>
      have hst : ¬st = "success" := fun he => h data (by rw [he])
      simp [handleFileUpload, hst]
    | failure d m => simp [handleFileUpload]
  · cases o with
    | response st data =>
      have hst : ¬st = "success" := fun he => h data (by rw [he])
      simp [handleFileUpload, hst]
    | failure d m => simp [handleFileUpload]
  · cases o with
    | response st data =>
      have hst : ¬st = "success" := fun he => h data (by rw [he])
      refine Or.inr (Or.inl ?_)
      simp only [handleFileUpload, if_true, if_neg hst, outcomeMessage]
      decide
    | failure d m =>
      cases d with
      | none =>
        by_cases hm : m = ""
        · refine Or.inr (Or.inr ?_)
          simp [handleFileUpload, catchMessage, jsOr, hm]
        · refine Or.inr (Or.inl ?_)
          simp [handleFileUpload, catchMessage, jsOr, hm, outcomeMessage]
      | some dv =>
        by_cases hd : dv = ""
        · by_cases hm : m = ""
          · refine Or.inr (Or.inr ?_)
            simp [handleFileUpload, catchMessage, jsOr, hd, hm]
          · refine Or.inr (Or.inl ?_)
            simp [handleFileUpload, catchMessage, jsOr, hd, hm, outcomeMessage]
        · refine Or.inl ⟨dv, rfl, ?_⟩
          simp [handleFileUpload, catchMessage, jsOr, hd]

/-- Witness for C10: a failed upload leaves the result state untouched. -/
theorem upload_error_witness :
    (handleFileUpload initialState true (UploadOutcome.failure none ("boom")) ("t")).processedEmails
        = initialState.processedEmails
    ∧ (handleFileUpload initialState true (UploadOutcome.failure none ("boom")) ("t")).outputFilesProcessed
        = initialState.outputFilesProcessed := by
  have h := upload_error_preserves_results initialState
    (UploadOutcome.failure none ("boom")) ("t")
    (fun d hc => UploadOutcome.noConfusion hc)
  exact ⟨h.1, h.2.1⟩

/-- C2: the Email Processor returns one record per input email, in input
order (the record at index `j` is derived from the email at index `j`); the
empty batch yields the empty list; a failing email's record has null
`subscription_info` and non-null `extraction_error`; and a failure at one
email never changes the records of the other emails: any extraction
function agreeing with `f` outside the failing email produces the same
records there. -/
theorem processor_order_and_isolation
    (f g : String → String → Except String SubscriptionInfo)
    (l : List RawEmail) (i : Nat) (hi : i < l.length)
    (hfail : ∃ m, f (l[i]).subject (sanitizeBody ((l[i]).body)) = Except.error m)
    (hagree : ∀ j (hj : j < l.length), l[j] ≠ l[i] →
      f (l[j]).subject (sanitizeBody ((l[j]).body))
        = g (l[j]).subject (sanitizeBody ((l[j]).body))) :
    (processEmails f l).length = l.length
    ∧ (∀ j (hj : j < l.length), (processEmails f l)[j]? = some (processOne f (l[j])))
    ∧ processEmails f ([] : List RawEmail) = []
    ∧ (processOne f (l[i])).subscription_info = none
    ∧ (processOne f (l[i])).extraction_error ≠ none
    ∧ (∀ j (hj : j < l.length), l[j] ≠ l[i] →
        (processEmails f l)[j]? = (processEmails g l)[j]?) := by
  obtain ⟨m, hm⟩ := hfail
  refine ⟨by simp [processEmails], ?_, rfl, ?_, ?_, ?_⟩
  · intro j hj
    simp [processEmails, List.getElem?_map, List.getElem?_eq_getElem hj]
  · simp [processOne, mkProcessed, hm]
  · simp [processOne, mkProcessed, hm]
  · intro j hj hne
    simp [processEmails, List.getElem?_map, List.getElem?_eq_getElem hj,
      processOne, mkProcessed, hagree j hj hne]

/-- Witness for C2 at a concrete five-email batch failing at index 2. -/
theorem processor_isolation_witness :
    (processEmails wExtract wEmails).length = wEmails.length
    ∧ (processOne wExtract (wEmails.get ⟨2, by decide⟩)).subscription_info = none := by
  have h := processor_order_and_isolation wExtract wExtractOk wEmails 2 (by decide)
    ⟨"refused", rfl⟩
    (by
      intro j hj hne
      have hj5 : j < 5 := by simpa [wEmails] using hj
      interval_cases j
      · rfl
      · rfl
      · exact absurd rfl hne
      · rfl
      · rfl)
  exact ⟨h.1, h.2.2.2.1⟩

/-! ## Helper lemmas: deduplication accounting -/

theorem occsFor_nil (q : String) : occsFor [] q = [] := rfl

theorem countFor_nil (q : String) : countFor [] q = 0 := rfl

theorem occsFor_cons (k : String) (cs : CanonicalService)
    (rest : List (String × CanonicalService)) (q : String) :
    occsFor ((k, cs) :: rest) q = if k = q then cs.occurrences else occsFor rest q := by
  by_cases h : k = q
  · subst h; simp [occsFor, List.find?_cons]
  · have hb : (k == q) = false := beq_eq_false_iff_ne.mpr h
    simp [occsFor, List.find?_cons, hb, h]

theorem countFor_cons (k : String) (cs : CanonicalService)
    (rest : List (String × CanonicalService)) (q : String) :
    countFor ((k, cs) :: rest) q = if k = q then cs.count else countFor rest q := by
  by_cases h : k = q
  · subst h; simp [countFor, List.find?_cons]
  · have hb : (k == q) = false := beq_eq_false_iff_ne.mpr h
    simp [countFor, List.find?_cons, hb, h]

theorem occsFor_insertOcc (acc : List (String × CanonicalService)) (k : String)
    (si : SubscriptionInfo) (q : String) :
    occsFor (insertOcc acc k si) q
      = occsFor acc q ++ (if k = q then [si] else []) := by
  induction acc with
  | nil =>
    by_cases h : k = q <;> simp [insertOcc, occsFor_cons, occsFor_nil, h]
  | cons a rest ih =>
    obtain ⟨ak, cs⟩ := a
    by_cases hak : ak = k
    · subst hak
      by_cases hq : ak = q
      · subst hq
        simp [insertOcc, occsFor_cons]
      · simp [insertOcc, occsFor_cons, hq]
    · have hb : (ak == k) = false := beq_eq_false_iff_ne.mpr hak
      by_cases hq : ak = q
      · subst hq
        have hk : ¬k = ak := fun hx => hak hx.symm
        simp [insertOcc, hb, occsFor_cons, hk]
      · simp [insertOcc, hb, occsFor_cons, hq, ih]

theorem countFor_insertOcc (acc : List (String × CanonicalService)) (k : String)
    (si : SubscriptionInfo) (q : String) :
    countFor (insertOcc acc k si) q
      = countFor acc q + (if k = q then 1 else 0) := by
  induction acc with
  | nil =>
    by_cases h : k = q <;> simp [insertOcc, countFor_cons, countFor_nil, h]
  | cons a rest ih =>
    obtain ⟨ak, cs⟩ := a
    by_cases hak : ak = k
    · subst hak
      by_cases hq : ak = q
      · subst hq
        simp [insertOcc, countFor_cons]
      · simp [insertOcc, countFor_cons, hq]
    · have hb : (ak == k) = false := beq_eq_false_iff_ne.mpr hak
      by_cases hq : ak = q
      · subst hq
        have hk : ¬k = ak := fun hx => hak hx.symm
        simp [insertOcc, hb, countFor_cons, hk]
      · simp [insertOcc, hb, countFor_cons, hq, ih]

theorem occsFor_foldl (es : List (String × SubscriptionInfo))
    (acc : List (String × CanonicalService)) (q : String) :
    occsFor (es.foldl (fun a e => insertOcc a e.1 e.2) acc) q
      = occsFor acc q ++ (es.filter (fun e => e.1 == q)).map Prod.snd := by
  induction es generalizing acc with
  | nil => simp
  | cons e es ih =>
    rw [List.foldl_cons, ih, occsFor_insertOcc]
    by_cases h : e.1 = q
    · simp [List.filter_cons, h]
    · have hb : (e.1 == q) = false := beq_eq_false_iff_ne.mpr h
      simp [List.filter_cons, hb, h]

theorem countFor_foldl (es : List (String × SubscriptionInfo))
    (acc : List (String × CanonicalService)) (q : String) :
    countFor (es.foldl (fun a e => insertOcc a e.1 e.2) acc) q
      = countFor acc q + es.countP (fun e => e.1 == q) := by
  induction es generalizing acc with
  | nil => simp
  | cons e es ih =>
    rw [List.foldl_cons, ih, countFor_insertOcc, List.countP_cons]
    by_cases h : e.1 = q
    · simp [h]
      omega
    · have hb : (e.1 == q) = false := beq_eq_false_iff_ne.mpr h
      simp [hb, h]

theorem countFor_dedupServices (ps : List ProcessedEmail) (key : String) :
    countFor (dedupServices ps) key = (namedEntries ps).countP (fun e => e.1 == key) := by
  simpa [dedupServices, countFor_nil] using countFor_foldl (namedEntries ps) [] key

theorem occsFor_dedupServices (ps : List ProcessedEmail) (key : String) :
    occsFor (dedupServices ps) key
      = ((namedEntries ps).filter (fun e => e.1 == key)).map Prod.snd := by
  simpa [dedupServices, occsFor_nil] using occsFor_foldl (namedEntries ps) [] key

theorem keys_insertOcc_subset (acc : List (String × CanonicalService)) (k : String)
    (si : SubscriptionInfo) :
    ∀ q ∈ (insertOcc acc k si).map Prod.fst, q ∈ acc.map Prod.fst ∨ q = k := by
  induction acc with
  | nil => simp [insertOcc]
  | cons a rest ih =>
    obtain ⟨ak, cs⟩ := a
    by_cases hak : ak = k
    · subst hak
      have hins : insertOcc ((ak, cs) :: rest) ak si
          = (ak, ⟨cs.canonical_name, cs.occurrences ++ [si], cs.count + 1⟩) :: rest := by
        simp [insertOcc]
      intro q hq
      rw [hins] at hq
      refine Or.inl ?_
      simpa using (by simpa using hq : q = ak ∨ q ∈ rest.map Prod.fst)
    · have hb : (ak == k) = false := beq_eq_false_iff_ne.mpr hak
      have hins : insertOcc ((ak, cs) :: rest) k si = (ak, cs) :: insertOcc rest k si := by
        simp [insertOcc, hb]
      intro q hq
      rw [hins] at hq
      rcases (by simpa using hq : q = ak ∨ q ∈ (insertOcc rest k si).map Prod.fst) with
        hq | hq
      · exact Or.inl (by simp [hq])
      · rcases ih q hq with hmem | hk
        · refine Or.inl ?_
          simp only [List.map_cons]
          exact List.mem_cons_of_mem _ hmem
        · exact Or.inr hk

theorem wfSvc_insertOcc (acc : List (String × CanonicalService)) (k : String)
    (si : SubscriptionInfo) (wf : WfSvc acc) : WfSvc (insertOcc acc k si) := by
  induction acc with
  | nil =>
    refine ⟨?_, by simp [insertOcc]⟩
    intro e he
    simp [insertOcc] at he
    subst he
    simp
  | cons a rest ih =>
    obtain ⟨ak, cs⟩ := a
    obtain ⟨hmem, hnd⟩ := wf
    rw [List.map_cons] at hnd
    have haknot : ak ∉ rest.map Prod.fst := (List.nodup_cons.mp hnd).1
    have hndrest : (rest.map Prod.fst).Nodup := (List.nodup_cons.mp hnd).2
    by_cases hak : ak = k
    · subst hak
      have hins : insertOcc ((ak, cs) :: rest) ak si
          = (ak, ⟨cs.canonical_name, cs.occurrences ++ [si], cs.count + 1⟩) :: rest := by
        simp [insertOcc]
      rw [hins]
      constructor
      · intro e he
        rcases List.mem_cons.mp he with he | he
        · subst he
          have hcs := hmem (ak, cs) (by simp)
          have hc1 : cs.count = cs.occurrences.length := hcs.1
          exact ⟨by simp [hc1], by simp⟩
        · exact hmem e (List.mem_cons_of_mem _ he)
      · rw [List.map_cons]
        exact List.nodup_cons.mpr ⟨haknot, hndrest⟩
    · have hb : (ak == k) = false := beq_eq_false_iff_ne.mpr hak
      have hins : insertOcc ((ak, cs) :: rest) k si = (ak, cs) :: insertOcc rest k si := by
        simp [insertOcc, hb]
      have wfrest : WfSvc rest :=
        ⟨fun e he => hmem e (List.mem_cons_of_mem _ he), hndrest⟩
      obtain ⟨ihmem, ihnd⟩ := ih wfrest
      rw [hins]
      constructor
      · intro e he
        rcases List.mem_cons.mp he with he | he
        · subst he
          exact hmem (ak, cs) (by simp)
        · exact ihmem e he
      · rw [List.map_cons]
        refine List.nodup_cons.mpr ⟨?_, ihnd⟩
        intro hcon
        rcases keys_insertOcc_subset rest k si ak hcon with hmem2 | hkk
        · exact haknot hmem2
        · exact hak hkk

theorem wfSvc_foldl (es : List (String × SubscriptionInfo))
    (acc : List (String × CanonicalService)) (wf : WfSvc acc) :
    WfSvc (es.foldl (fun a e => insertOcc a e.1 e.2) acc) := by
  induction es generalizing acc with
  | nil => exact wf
  | cons e es ih => exact ih _ (wfSvc_insertOcc acc e.1 e.2 wf)

theorem wfSvc_dedupServices (ps : List ProcessedEmail) : WfSvc (dedupServices ps) :=
  wfSvc_foldl (namedEntries ps) [] ⟨by simp, by simp⟩

theorem find?_key_spec (acc : List (String × CanonicalService)) (q : String)
    (e : String × CanonicalService) (h : acc.find? (fun x => x.1 == q) = some e) :
    e.1 = q ∧ occsFor acc q = e.2.occurrences ∧ countFor acc q = e.2.count := by
  have hp := List.find?_some h
  simp only [beq_iff_eq] at hp
  refine ⟨hp, ?_, ?_⟩ <;> simp [occsFor, countFor, h]

theorem head?_eq_some_headI {α : Type} [Inhabited α] (l : List α) (h : l ≠ []) :
    l.head? = some l.headI := by
  cases l with
  | nil => exact absurd rfl h
  | cons a t => rfl

theorem namedEntries_countP (ps : List ProcessedEmail) (key : String) :
    (namedEntries ps).countP (fun e => e.1 == key)
      = ps.countP (fun p =>
          match namedSubscription p with
          | some e => e.1 == key
          | none => false) := by
  induction ps with
  | nil => rfl
  | cons p ps ih =>
    simp only [namedEntries] at ih ⊢
    rw [List.filterMap_cons, List.countP_cons]
    cases h : namedSubscription p with
    | none => simp [h, ih]
    | some e => simp [h, List.countP_cons, ih]

theorem namedMatch_iff (key : String) (p : ProcessedEmail) :
    (match namedSubscription p with
      | some e => e.1 == key
      | none => false)
      = (match p.subscription_info with
          | some si =>
            match si.name with
            | some n => !(n == "") && (normalizeServiceName n == key)
            | none => false
          | none => false) := by
  cases hsi : p.subscription_info with
  | none => simp [namedSubscription, hsi]
  | some si =>
    cases hn : si.name with
    | none => simp [namedSubscription, hsi, hn]
    | some n =>
      by_cases hemp : n = ""
      · simp [namedSubscription, hsi, hn, hemp]
      · have hb : (n == "") = false := beq_eq_false_iff_ne.mpr hemp
        simp [namedSubscription, hsi, hn, hemp, hb]

theorem countP_namedMatch (ps : List ProcessedEmail) (key : String) :
    ps.countP (fun p =>
        match namedSubscription p with
        | some e => e.1 == key
        | none => false)
      = ps.countP (fun p =>
          match p.subscription_info with
          | some si =>
            match si.name with
            | some n => !(n == "") && (normalizeServiceName n == key)
            | none => false
          | none => false) :=
  List.countP_congr (fun x _ => by rw [namedMatch_iff])

theorem find?_filter_count (acc : List (String × CanonicalService)) (q : String)
    (hnd : (acc.map Prod.fst).Nodup) :
    (acc.filter (fun x => decide (1 < x.2.count))).find? (fun x => x.1 == q)
      = match acc.find? (fun x => x.1 == q) with
        | some e => if 1 < e.2.count then some e else none
        | none => none := by
  induction acc with
  | nil => rfl
  | cons a rest ih =>
    obtain ⟨ak, cs⟩ := a
    rw [List.map_cons] at hnd
    have haknot : ak ∉ rest.map Prod.fst := (List.nodup_cons.mp hnd).1
    have hndrest : (rest.map Prod.fst).Nodup := (List.nodup_cons.mp hnd).2
    by_cases hq : ak = q
    · subst hq
      by_cases hlt : 1 < cs.count
      · simp [List.filter_cons, hlt, List.find?_cons]
      · have hnone2 : (rest.filter (fun x => decide (1 < x.2.count))).find?
            (fun x => x.1 == ak) = none := by
          refine List.find?_eq_none.mpr ?_
          intro x hx hpx
          have hxr : x ∈ rest := (List.mem_filter.mp hx).1
          have hxk : x.1 = ak := beq_iff_eq.mp hpx
          exact haknot (hxk ▸ List.mem_map_of_mem Prod.fst hxr)
        simp [List.filter_cons, hlt, List.find?_cons, hnone2]
    · have hb : (ak == q) = false := beq_eq_false_iff_ne.mpr hq
      by_cases hlt : 1 < cs.count
      · simp [List.filter_cons, hlt, List.find?_cons, hb, ih hndrest]
      · simp [List.filter_cons, hlt, List.find?_cons, hb, ih hndrest]

/-- C3 (amended: names must also be non-empty, per spec §4.4 step 2):
`CanonicalService.count` for a key equals the number of processed emails
whose non-null, non-empty subscription name normalizes to that key; a key
appears in `duplicate_subscriptions_details` exactly when its count exceeds
one; and the three Netflix spellings collapse to one canonical service of
count 3 that is reported as a duplicate with count 3. -/
theorem dedup_count_correct (ps : List ProcessedEmail) (key : String) :
    countFor (dedupServices ps) key
      = ps.countP (fun p =>
          match p.subscription_info with
          | some si =>
            match si.name with
            | some n => !(n == "") && (normalizeServiceName n == key)
            | none => false
          | none => false)
    ∧ (((duplicateDetails ps).find? (fun e => e.1 == key)).isSome
        ↔ 1 < countFor (dedupServices ps) key)
    ∧ (dedupServices netflixBatch).length = 1
    ∧ countFor (dedupServices netflixBatch) ("netflix") = 3
    ∧ ((duplicateDetails netflixBatch).find? (fun e => e.1 == ("netflix"))).map
        (fun e => e.2.count) = some 3 := by
  refine ⟨?_, ?_, by decide, by decide, by decide⟩
  · rw [countFor_dedupServices, namedEntries_countP, countP_namedMatch]
  · have hnd := (wfSvc_dedupServices ps).2
    simp only [duplicateDetails, List.find?_map]
    have hcomp : ((fun e : String × DupDetail => e.1 == key)
          ∘ (fun e : String × CanonicalService =>
              (e.1, DupDetail.mk e.2.count (representative e.2).category)))
        = fun e : String × CanonicalService => e.1 == key := rfl
    rw [hcomp, find?_filter_count _ _ hnd]
    cases h : (dedupServices ps).find? (fun x => x.1 == key) with
    | none => simp [countFor, h]
    | some e =>
      by_cases hlt : 1 < e.2.count <;> simp [countFor, h, hlt]

/-- Counterexample to C3 as stated: for the canonical key `""` of the batch
`[spaceNameEmail, emptyNameEmail]`, the recorded count (1) differs from the
number of emails whose non-null name normalizes to the key (2), because the
empty-named email is excluded from deduplication. -/
theorem dedup_count_claim_counterexample :
    ¬ (countFor (dedupServices [spaceNameEmail, emptyNameEmail]) ("")
        = [spaceNameEmail, emptyNameEmail].countP (fun p =>
            match p.subscription_info with
            | some si =>
              match si.name with
              | some n => normalizeServiceName n == ("")
              | none => false
            | none => false)) := by
  decide

/-- C6: the representative SubscriptionInfo of each canonical service is the
first-seen occurrence in input order (selected positionally, never by
confidence); `deduplicated_subscriptions` has an entry for every canonical
service regardless of count; and the category shown in
`duplicate_subscriptions_details` is the representative's. -/
theorem representative_first_seen (ps : List ProcessedEmail) (key : String)
    (e : String × CanonicalService)
    (h : (dedupServices ps).find? (fun x => x.1 == key) = some e) :
    ((namedEntries ps).find? (fun x => x.1 == key)).map Prod.snd
        = some (representative e.2)
    ∧ (e.1, DedupEntry.mk e.2.count (representative e.2)) ∈ dedupSubscriptions ps
    ∧ ((duplicateDetails ps).find? (fun x => x.1 == key)).map (fun x => x.2.category)
        = (if 1 < e.2.count then some ((representative e.2).category) else none) := by
  have hmem : e ∈ dedupServices ps := List.mem_of_find?_eq_some h
  have hwf := wfSvc_dedupServices ps
  have hne : e.2.occurrences ≠ [] := (hwf.1 e hmem).2
  have hspec := find?_key_spec _ _ _ h
  have hocc : occsFor (dedupServices ps) key = e.2.occurrences := hspec.2.1
  have hfold := occsFor_dedupServices ps key
  refine ⟨?_, ?_, ?_⟩
  · have h1 : (namedEntries ps).find? (fun x => x.1 == key)
        = ((namedEntries ps).filter (fun x => x.1 == key)).head? :=
      (List.filter_head? _ _).symm
    rw [h1]
    have h2 : (((namedEntries ps).filter (fun x => x.1 == key)).head?).map Prod.snd
        = (((namedEntries ps).filter (fun x => x.1 == key)).map Prod.snd).head? := by
      rw [List.head?_map]
    rw [h2, ← hfold, hocc, head?_eq_some_headI _ hne]
    rfl
  · exact List.mem_map_of_mem _ hmem
  · simp only [duplicateDetails, List.find?_map]
    have hcomp : ((fun x : String × DupDetail => x.1 == key)
          ∘ (fun x : String × CanonicalService =>
              (x.1, DupDetail.mk x.2.count (representative x.2).category)))
        = fun x : String × CanonicalService => x.1 == key := rfl
    rw [hcomp, find?_filter_count _ _ hwf.2, h]
    by_cases hlt : 1 < e.2.count <;> simp [hlt]

/-- Witness for C6 at the Netflix batch. -/
theorem representative_witness :
    ((namedEntries netflixBatch).find? (fun x => x.1 == ("netflix"))).map Prod.snd
        = some (representative netflixService)
    ∧ (("netflix"), DedupEntry.mk 3 (representative netflixService))
        ∈ dedupSubscriptions netflixBatch := by
  have h := representative_first_seen netflixBatch ("netflix")
    (("netflix"), netflixService) (by rfl)
  exact ⟨h.1, h.2.1⟩

/-- C4: for every canonical service found in the dedup map, the analytics
entry keeps a count of all occurrences (priced or not), its
`average_amount` is 0 when no occurrence is priced and is otherwise the
arithmetic mean of the non-null costs, and the entry is present in
`service_analytics`. -/
theorem service_average_correct (ps : List ProcessedEmail) (key : String)
    (e : String × CanonicalService)
    (h : (dedupServices ps).find? (fun x => x.1 == key) = some e) :
    (mkServiceStat e.2).count = e.2.occurrences.length
    ∧ ((e.2.occurrences.filterMap SubscriptionInfo.cost) = []
        → (mkServiceStat e.2).average_amount = 0)
    ∧ ((e.2.occurrences.filterMap SubscriptionInfo.cost) ≠ []
        → (mkServiceStat e.2).average_amount
            * ((e.2.occurrences.filterMap SubscriptionInfo.cost).length : ℚ)
            = (e.2.occurrences.filterMap SubscriptionInfo.cost).sum)
    ∧ (e.1, mkServiceStat e.2) ∈ serviceAnalytics ps := by
  have hmem : e ∈ dedupServices ps := List.mem_of_find?_eq_some h
  have hwf := wfSvc_dedupServices ps
  have hcnt : e.2.count = e.2.occurrences.length := (hwf.1 e hmem).1
  refine ⟨by simpa [mkServiceStat] using hcnt, ?_, ?_, ?_⟩
  · intro hb
    simp [mkServiceStat, averageAmount, hb]
  · intro hb
    have hlen : (e.2.occurrences.filterMap SubscriptionInfo.cost).length ≠ 0 := by
      simpa [List.length_eq_zero] using hb
    have hlenQ : ((e.2.occurrences.filterMap SubscriptionInfo.cost).length : ℚ) ≠ 0 := by
      exact_mod_cast hlen
    simp only [mkServiceStat, averageAmount]
    rw [if_neg hlen]
    exact div_mul_cancel₀ _ hlenQ
  · exact List.mem_map_of_mem _ hmem

/-- Witness for C4: costs [9.99, null, 11.99] give average 10.99 and count 3. -/
theorem service_average_witness :
    (mkServiceStat avgService).count = 3
    ∧ (mkServiceStat avgService).average_amount = (10.99 : ℚ) := by
  have h := service_average_correct avgBatch ("svc") (("svc"), avgService) (by rfl)
  constructor
  · exact h.1.trans (by decide)
  · have h4 := h.2.2.1 (by decide)
    have hfm : avgService.occurrences.filterMap SubscriptionInfo.cost
        = [(9.99 : ℚ), (11.99 : ℚ)] := by rfl
    rw [hfm] at h4
    simp [List.sum_cons] at h4
    linarith

/-! ## Helper lemmas: sanitizer idempotence -/

theorem stripTagsGo_eq_self (l : List Char) (h : '<' ∉ l) : stripTagsGo false l = l := by
  induction l with
  | nil => rfl
  | cons c cs ih =>
    have hc : ¬c = '<' := fun he => h (he ▸ List.mem_cons_self c cs)
    simp [stripTagsGo, hc, ih (fun hm => h (List.mem_cons_of_mem _ hm))]

set_option maxHeartbeats 2000000 in
theorem decodeEntities_cons_ne (c : Char) (cs : List Char) (h : ¬c = '&') :
    decodeEntities (c :: cs) = c :: decodeEntities cs := by
  rw [decodeEntities.eq_def]
  dsimp only
  rw [if_neg h]

theorem decodeEntities_eq_self (l : List Char) (h : '&' ∉ l) : decodeEntities l = l := by
  induction l with
  | nil => rfl
  | cons c cs ih =>
    have hc : ¬c = '&' := fun he => h (he ▸ List.mem_cons_self c cs)
    rw [decodeEntities_cons_ne c cs hc, ih (fun hm => h (List.mem_cons_of_mem _ hm))]

theorem mem_squeezeWs : ∀ (l : List Char) (c : Char), c ∈ squeezeWs l → c ∈ l ∨ c = ' '
  | [], c => by simp [squeezeWs]
  | [d], c => by
    by_cases h : isWsChar d = true
    · simp [squeezeWs, h]
      intro h'
      exact Or.inr h'
    · simp only [squeezeWs, Bool.not_eq_true] at h ⊢
      simp [h]
      intro h'
      exact Or.inl h'
  | a :: b :: rest, c => by
    by_cases hab : (isWsChar a && isWsChar b) = true
    · intro hmem
      rw [show squeezeWs (a :: b :: rest) = squeezeWs (b :: rest) from by
        simp [squeezeWs, hab]] at hmem
      rcases mem_squeezeWs (b :: rest) c hmem with h | h
      · exact Or.inl (List.mem_cons_of_mem _ h)
      · exact Or.inr h
    · intro hmem
      rw [show squeezeWs (a :: b :: rest)
          = (if isWsChar a then ' ' else a) :: squeezeWs (b :: rest) from by
        simp [squeezeWs, hab]] at hmem
      rcases List.mem_cons.mp hmem with h | h
      · by_cases ha : isWsChar a = true
        · refine Or.inr ?_
          simpa [ha] using h
        · refine Or.inl ?_
          simp only [Bool.not_eq_true] at ha
          simp [ha] at h
          simp [h]
      · rcases mem_squeezeWs (b :: rest) c h with h | h
        · exact Or.inl (List.mem_cons_of_mem _ h)
        · exact Or.inr h

theorem squeezeWs_head?_of_not_ws (b : Char) (r : List Char) (hb : isWsChar b = false) :
    (squeezeWs (b :: r)).head? = some b := by
  cases r with
  | nil => simp [squeezeWs, hb]
  | cons c cs => simp [squeezeWs, hb]

theorem sq_nil : Sq [] := ⟨by simp, by simp⟩

theorem sq_of_cons (c : Char) (l : List Char) (h : Sq (c :: l)) : Sq l :=
  ⟨fun d hd => h.1 d (List.mem_cons_of_mem _ hd), h.2.tail⟩

theorem sq_squeezeWs : ∀ l : List Char, Sq (squeezeWs l)
  | [] => sq_nil
  | [c] => by
    constructor
    · intro d hd hws
      by_cases h : isWsChar c = true
      · simp [squeezeWs, h] at hd
        simp [hd]
      · simp only [Bool.not_eq_true] at h
        simp [squeezeWs, h] at hd
        subst hd
        simp [h] at hws
    · by_cases h : isWsChar c = true <;> simp [squeezeWs, h, List.chain'_singleton]
  | a :: b :: rest => by
    have ih := sq_squeezeWs (b :: rest)
    by_cases hab : (isWsChar a && isWsChar b) = true
    · rw [show squeezeWs (a :: b :: rest) = squeezeWs (b :: rest) from by
        simp [squeezeWs, hab]]
      exact ih
    · rw [show squeezeWs (a :: b :: rest)
          = (if isWsChar a then ' ' else a) :: squeezeWs (b :: rest) from by
        simp [squeezeWs, hab]]
      constructor
      · intro d hd hws
        rcases List.mem_cons.mp hd with hd | hd
        · by_cases ha : isWsChar a = true
          · simpa [ha] using hd
          · simp only [Bool.not_eq_true] at ha
            simp [ha] at hd
            subst hd
            simp [ha] at hws
        · exact ih.1 d hd hws
      · refine List.chain'_cons'.mpr ⟨?_, ih.2⟩
        intro y hy
        by_cases ha : isWsChar a = true
        · have hb : isWsChar b = false := by
            cases hWb : isWsChar b
            · rfl
            · exact absurd (by simp [ha, hWb]) hab
          rw [squeezeWs_head?_of_not_ws b rest hb] at hy
          have hyb : b = y := by simpa using hy
          subst hyb
          simp [hb]
        · simp only [Bool.not_eq_true] at ha
          simp [ha]

theorem squeezeWs_eq_self : ∀ l : List Char, Sq l → squeezeWs l = l
  | [], _ => rfl
  | [c], h => by
    by_cases hc : isWsChar c = true
    · have : c = ' ' := h.1 c (by simp) hc
      simp [squeezeWs, hc, this]
    · simp only [Bool.not_eq_true] at hc
      simp [squeezeWs, hc]
  | a :: b :: rest, h => by
    have hnotboth : ¬(isWsChar a = true ∧ isWsChar b = true) :=
      (List.chain'_cons'.mp h.2).1 b (by
        cases rest <;> simp)
    have hab : (isWsChar a && isWsChar b) = false := by
      cases hA : isWsChar a <;> cases hB : isWsChar b <;> simp_all
    have htail := squeezeWs_eq_self (b :: rest) (sq_of_cons a _ h)
    rw [show squeezeWs (a :: b :: rest)
        = (if isWsChar a then ' ' else a) :: squeezeWs (b :: rest) from by
      simp [squeezeWs, hab]]
    rw [htail]
    by_cases ha : isWsChar a = true
    · have : a = ' ' := h.1 a (by simp) ha
      simp [ha, this]
    · simp only [Bool.not_eq_true] at ha
      simp [ha]

theorem sq_dropWhile (p : Char → Bool) (l : List Char) (h : Sq l) : Sq (l.dropWhile p) := by
  induction l with
  | nil => simpa using h
  | cons c cs ih =>
    by_cases hc : p c = true
    · rw [List.dropWhile_cons_of_pos hc]
      exact ih (sq_of_cons c cs h)
    · rw [List.dropWhile_cons_of_neg (by simp [hc])]
      exact h

theorem sq_reverse (l : List Char) (h : Sq l) : Sq l.reverse := by
  refine ⟨fun c hc => h.1 c (List.mem_reverse.mp hc), ?_⟩
  rw [List.chain'_reverse]
  exact h.2.imp (fun a b hab => fun hp => hab ⟨hp.2, hp.1⟩)

theorem sq_trimWs (l : List Char) (h : Sq l) : Sq (trimWs l) := by
  unfold trimWs
  exact sq_reverse _ (sq_dropWhile _ _ (sq_reverse _ (sq_dropWhile _ _ h)))

theorem headNotP_dropWhile (p : Char → Bool) (l : List Char) :
    headNotP p (l.dropWhile p) := by
  induction l with
  | nil => trivial
  | cons c cs ih =>
    by_cases hc : p c = true
    · rw [List.dropWhile_cons_of_pos hc]
      exact ih
    · rw [List.dropWhile_cons_of_neg (by simp [hc])]
      show p c = false
      simpa using hc

theorem dropWhile_eq_self_of_headNot (p : Char → Bool) (l : List Char)
    (h : headNotP p l) : l.dropWhile p = l := by
  cases l with
  | nil => rfl
  | cons c cs =>
    have hc : p c = false := h
    exact List.dropWhile_cons_of_neg (by simp [hc])

theorem headNotP_reverse_dropWhile (p : Char → Bool) (m : List Char)
    (hm : headNotP p m) : headNotP p ((m.reverse.dropWhile p).reverse) := by
  have hsf : m.reverse.dropWhile p <:+ m.reverse := List.dropWhile_suffix p
  obtain ⟨t, ht⟩ := hsf
  have hBrev : (m.reverse.dropWhile p).reverse ++ t.reverse = m := by
    rw [← List.reverse_append, ht, List.reverse_reverse]
  cases hB : (m.reverse.dropWhile p).reverse with
  | nil => trivial
  | cons c cs =>
    rw [hB] at hBrev
    rw [← hBrev] at hm
    exact hm

theorem trimmed_trimWs (l : List Char) : Trimmed (trimWs l) := by
  constructor
  · exact headNotP_reverse_dropWhile isWsChar (l.dropWhile isWsChar)
      (headNotP_dropWhile isWsChar l)
  · show headNotP isWsChar
      (((l.dropWhile isWsChar).reverse.dropWhile isWsChar).reverse.reverse)
    rw [List.reverse_reverse]
    exact headNotP_dropWhile isWsChar _

theorem trimWs_eq_self (l : List Char) (h : Trimmed l) : trimWs l = l := by
  unfold trimWs
  rw [dropWhile_eq_self_of_headNot isWsChar l h.1,
    dropWhile_eq_self_of_headNot isWsChar l.reverse h.2, List.reverse_reverse]

theorem mem_trimWs (c : Char) (l : List Char) (h : c ∈ trimWs l) : c ∈ l := by
  unfold trimWs at h
  rw [List.mem_reverse] at h
  have h1 : c ∈ (l.dropWhile isWsChar).reverse := (List.dropWhile_sublist _).subset h
  rw [List.mem_reverse] at h1
  exact (List.dropWhile_sublist _).subset h1

theorem sanitizeList_idem (l : List Char)
    (h1 : '<' ∉ sanitizeList l) (h2 : '&' ∉ sanitizeList l) :
    sanitizeList (sanitizeList l) = sanitizeList l := by
  have hvis : ∀ c ∈ sanitizeList l, (!isInvisibleChar c) = true := by
    intro c hc
    have hc1 := mem_trimWs c _ hc
    rcases mem_squeezeWs _ c hc1 with hc2 | hc2
    · have h3 := List.of_mem_filter hc2
      simpa using h3
    · subst hc2
      decide
  have hsq : Sq (sanitizeList l) := sq_trimWs _ (sq_squeezeWs _)
  have htr : Trimmed (sanitizeList l) := trimmed_trimWs _
  calc sanitizeList (sanitizeList l)
      = trimWs (squeezeWs ((decodeEntities (stripTags (sanitizeList l))).filter
          (fun c => !isInvisibleChar c))) := rfl
    _ = sanitizeList l := by
        rw [show stripTags (sanitizeList l) = sanitizeList l from
          stripTagsGo_eq_self _ h1]
        rw [decodeEntities_eq_self _ h2]
        rw [List.filter_eq_self.mpr hvis]
        rw [squeezeWs_eq_self _ hsq]
        rw [trimWs_eq_self _ htr]

/-- C8 (amended: idempotence holds for every input whose sanitized output
contains neither a tag-opening character nor an ampersand; entity decoding
makes the sanitizer non-idempotent in general): sanitizing its own output
again is a no-op on such inputs, and null or empty input yields the empty
string, not an error. -/
theorem sanitizer_idempotent_amended (s : String)
    (h1 : '<' ∉ (sanitizeBody s).data) (h2 : '&' ∉ (sanitizeBody s).data) :
    sanitizeBody (sanitizeBody s) = sanitizeBody s
    ∧ sanitizeBody ("") = ""
    ∧ sanitizeBodyOpt none = "" := by
  refine ⟨?_, rfl, rfl⟩
  have hq : sanitizeList (sanitizeList s.data) = sanitizeList s.data :=
    sanitizeList_idem s.data h1 h2
  calc sanitizeBody (sanitizeBody s)
      = String.mk (sanitizeList (sanitizeList s.data)) := rfl
    _ = String.mk (sanitizeList s.data) := by rw [hq]
    _ = sanitizeBody s := rfl

/-- Counterexample to C8 as stated: on input `"&lt;b&gt;hi"` the first pass
decodes the entities into a literal `<b>` tag, which the second pass strips,
so sanitizing twice is not a no-op. -/
theorem sanitizer_not_idempotent :
    ¬(sanitizeBody (sanitizeBody ("&lt;b&gt;hi")) = sanitizeBody ("&lt;b&gt;hi")) := by
  decide

/-- Witness for C8 at a concrete messy-whitespace input. -/
theorem sanitizer_idempotent_witness :
    sanitizeBody (sanitizeBody ("  hello   world ")) = sanitizeBody ("  hello   world ")
    ∧ sanitizeBody ("") = "" := by
  have h := sanitizer_idempotent_amended ("  hello   world ") (by decide) (by decide)
  exact ⟨h.1, h.2.1⟩

/-- Counterexample to C9 as stated: a reachable state whose processed-email
list is empty but whose analytics is non-null and still rendered.  Trace:
upload a one-email batch, the effect fetches a snapshot, then upload an
empty batch — the guard skips the new fetch but the stale snapshot stays
displayed. -/
theorem analytics_stale_after_empty_upload :
    AppReachable staleState ∧ staleState.processedEmails = []
      ∧ staleState.analytics ≠ none ∧ dashboardRenders staleState = true := by
  refine ⟨?_, ?_, ?_, ?_⟩
  · exact AppReachable.step _ _
      (AppReachable.step _ _
        (AppReachable.step _ _ AppReachable.init (AppStep.upload _ _ _ _))
        (AppStep.fetchOk _ _ (by decide)))
      (AppStep.upload _ _ _ _)
  · decide
  · decide
  · decide

/-- C9 (amended: when `processedEmails` is empty the effect's guard is false
so no analytics fetch is issued, a null-analytics state renders nothing, a
single step from an empty-and-null state keeps analytics null, and along
runs whose uploads all return empty batches analytics stays null and
nothing is rendered — but an empty upload after a non-empty one leaves the
previously fetched snapshot displayed; analytics is not reset). -/
theorem analytics_fetch_guard (s t : AppState)
    (hempty : s.processedEmails = []) (hnull : s.analytics = none)
    (hstep : AppStep s t) :
    shouldFetch s = false
    ∧ dashboardRenders s = false
    ∧ t.analytics = none
    ∧ (∀ u : AppState, EmptyUploadsReachable u →
        u.analytics = none ∧ dashboardRenders u = false) := by
  have hguard : shouldFetch s = false := by
    simp [shouldFetch, hempty]
  refine ⟨hguard, by simp [dashboardRenders, hnull], ?_, ?_⟩
  · cases hstep with
    | upload hasFile o ts =>
      cases o with
      | response st data =>
        by_cases hst : st = "success" <;> cases hasFile <;>
          simp [handleFileUpload, hst, hnull]
      | failure d m =>
        cases hasFile <;> simp [handleFileUpload, hnull]
    | fetchOk a h =>
      rw [hguard] at h
      exact absurd h (by simp)
    | fetchFail h => exact hnull
  · intro u hu
    have hinv : u.processedEmails = [] ∧ u.analytics = none := by
      induction hu with
      | init => exact ⟨rfl, rfl⟩
      | upload s' hasFile o ts hs' ho ih =>
        cases o with
        | response st data =>
          have hdata : data = [] := ho
          by_cases hst : st = "success" <;> cases hasFile <;>
            simp [handleFileUpload, hst, ih.1, ih.2, hdata]
        | failure d m =>
          cases hasFile <;> simp [handleFileUpload, ih.1, ih.2]
      | fetchOk s' a hs' hfetch ih =>
        rw [show shouldFetch s' = false by simp [shouldFetch, ih.1]] at hfetch
        exact absurd hfetch (by simp)
      | fetchFail s' hs' hfetch ih => exact ih
    exact ⟨hinv.2, by simp [dashboardRenders, hinv.2]⟩

/-- Witness for C9's amended statement at the initial state. -/
theorem analytics_fetch_guard_witness :
    shouldFetch initialState = false
    ∧ (handleFileUpload initialState true
        (UploadOutcome.failure none ("x")) ("t")).analytics = none := by
  have h := analytics_fetch_guard initialState
    (handleFileUpload initialState true (UploadOutcome.failure none ("x")) ("t"))
    rfl rfl (AppStep.upload _ _ _ _)
  exact ⟨h.1, h.2.2.1⟩
